import Mathlib

/-!
Verification of the resume-extraction pipeline of `backend/resume_extract.py`
and the orchestration in `backend/main.py`.

The Python code is shallowly embedded: strings become `List Char` / `String`,
Python dicts become association lists, `None`/numbers/lists become the `PyVal`
type, raised exceptions become `Except` errors, and the regular expressions
used by the tolerant extractor are embedded as deterministic scanners that
implement the leftmost, backtracking-greedy semantics of `re.search` /
`re.findall` for the specific patterns appearing in the source.

JSON numbers are kept as their raw lexemes (`PyVal.num "3.5"`); no claim
below depends on numeric equality of parsed numbers.
-/

namespace ResumeParser

/-! ## Basic Python string helpers -/

/-- Python whitespace for `str.strip()` / `\s` (ASCII fragment). -/
def isPyWs (c : Char) : Bool :=
  c == ' ' || c == '\t' || c == '\n' || c == '\r' || c == '\x0b' || c == '\x0c'

/-- Remove leading whitespace (`str.lstrip()`). -/
def lstripL (l : List Char) : List Char := l.dropWhile isPyWs

/-- Remove trailing whitespace (`str.rstrip()`). -/
def rstripL (l : List Char) : List Char := (l.reverse.dropWhile isPyWs).reverse

/-- Python `str.strip()` on a character list. -/
def stripL (l : List Char) : List Char := rstripL (lstripL l)

/-- Python `str.strip()` on a `String`. -/
def pyStrip (s : String) : String := ⟨stripL s.data⟩

/-- Python `str.strip(ch)` for a single character argument. -/
def stripCharL (ch : Char) (l : List Char) : List Char :=
  ((l.dropWhile (· == ch)).reverse.dropWhile (· == ch)).reverse

/-- Python `str.replace(pat, "", 1)`: delete the first occurrence of `pat`. -/
def replaceFirstL (pat : List Char) : List Char → List Char
  | [] => []
  | c :: cs => if pat.isPrefixOf (c :: cs) then (c :: cs).drop pat.length
               else c :: replaceFirstL pat cs

/-- Substring test (Python `needle in haystack` on strings). -/
def containsSubL (needle : List Char) : List Char → Bool
  | [] => needle.isEmpty
  | c :: cs => needle.isPrefixOf (c :: cs) || containsSubL needle cs

/-- Python `str.splitlines()` restricted to `\n`, `\r\n`, `\r` separators. -/
def splitLinesGo (acc : List Char) : List Char → List (List Char)
  | [] => if acc.isEmpty then [] else [acc.reverse]
  | '\r' :: '\n' :: rest => acc.reverse :: splitLinesGo [] rest
  | '\r' :: rest => acc.reverse :: splitLinesGo [] rest
  | '\n' :: rest => acc.reverse :: splitLinesGo [] rest
  | c :: rest => splitLinesGo (c :: acc) rest

def splitLines (s : String) : List String :=
  (splitLinesGo [] s.data).map (fun l => ⟨l⟩)

/-- First non-blank line, stripped (the `for line in …splitlines()` loops). -/
def firstNonBlankLine (s : String) : Option String :=
  (splitLines s).findSome? fun line =>
    let t := pyStrip line
    if t = "" then none else some t

/-! ## Python values (the result of `json.loads`, and dict-shaped records) -/

inductive PyVal where
  /-- Python `None` / JSON `null`. -/
  | pynull
  | pybool (b : Bool)
  /-- A JSON number, kept as its raw lexeme. -/
  | num (lex : String)
  | str (s : String)
  | list (xs : List PyVal)
  | dict (kvs : List (String × PyVal))

/-- The keys of a Python dict, in insertion order. -/
def pyKeys : PyVal → List String
  | .dict kvs => kvs.map (·.1)
  | _ => []

/-- Association-list lookup (Python dict `[]` access on present keys). -/
def pyLookup (v : PyVal) (k : String) : Option PyVal :=
  match v with
  | .dict kvs => kvs.lookup k
  | _ => none

def PyVal.isDict : PyVal → Bool
  | .dict _ => true
  | _ => false

/-! ## A strict JSON parser (model of Python `json.loads`) -/

def isJsonWs (c : Char) : Bool :=
  c == ' ' || c == '\t' || c == '\n' || c == '\r'

/-- Hex digit test. -/
def isHexDig (c : Char) : Bool :=
  c.isDigit || ('a' ≤ c && c ≤ 'f') || ('A' ≤ c && c ≤ 'F')

/-- Hex digit value. -/
def hexVal (c : Char) : Nat :=
  if c.isDigit then c.toNat - 48
  else if 'a' ≤ c ∧ c ≤ 'f' then c.toNat - 87
  else if 'A' ≤ c ∧ c ≤ 'F' then c.toNat - 55
  else 0

/-- Parse the body of a JSON string after the opening quote; returns the
decoded characters and the remainder after the closing quote.  Lone
surrogate escapes are rejected (a mild narrowing of CPython, which is not
exercised by any claim). -/
def parseJString : List Char → Option (List Char × List Char)
  | [] => none
  | '"' :: rest => some ([], rest)
  | '\\' :: e :: rest =>
    match e with
    | '"' => (parseJString rest).map fun (s, r) => ('"' :: s, r)
    | '\\' => (parseJString rest).map fun (s, r) => ('\\' :: s, r)
    | '/' => (parseJString rest).map fun (s, r) => ('/' :: s, r)
    | 'b' => (parseJString rest).map fun (s, r) => ('\x08' :: s, r)
    | 'f' => (parseJString rest).map fun (s, r) => ('\x0c' :: s, r)
    | 'n' => (parseJString rest).map fun (s, r) => ('\n' :: s, r)
    | 'r' => (parseJString rest).map fun (s, r) => ('\r' :: s, r)
    | 't' => (parseJString rest).map fun (s, r) => ('\t' :: s, r)
    | 'u' =>
      match rest with
      | a :: b :: c :: d :: rest' =>
        if isHexDig a && isHexDig b && isHexDig c && isHexDig d then
          let n := 4096 * hexVal a + 256 * hexVal b + 16 * hexVal c + hexVal d
          if 0xD800 ≤ n ∧ n < 0xE000 then none
          else (parseJString rest').map fun (s, r) => (Char.ofNat n :: s, r)
        else none
      | _ => none
    | _ => none
  | c :: rest =>
    if c.toNat < 32 then none
    else (parseJString rest).map fun (s, r) => (c :: s, r)

/-- Optional exponent part of a JSON number. -/
def parseJExp (cs : List Char) : List Char × List Char :=
  match cs with
  | e :: r =>
    if e = 'e' ∨ e = 'E' then
      let (sg, r₁) : List Char × List Char := match r with
        | '+' :: r' => (['+'], r')
        | '-' :: r' => (['-'], r')
        | _ => ([], r)
      let ds := r₁.takeWhile Char.isDigit
      if ds.isEmpty then ([], e :: r) else (e :: (sg ++ ds), r₁.drop ds.length)
    else ([], e :: r)
  | [] => ([], [])

/-- JSON number lexeme, after CPython's scanner regex
`(-?(?:0|[1-9]\d*))(\.\d+)?([eE][-+]?\d+)?`. -/
def parseJNumber (cs : List Char) : Option (List Char × List Char) :=
  let (sign, cs₁) : List Char × List Char := match cs with
    | '-' :: r => (['-'], r)
    | _ => ([], cs)
  match cs₁ with
  | [] => none
  | c :: _ =>
    if ¬ c.isDigit then none
    else
      let intPart := if c = '0' then ['0'] else cs₁.takeWhile Char.isDigit
      let cs₂ := cs₁.drop intPart.length
      let (fracPart, cs₃) : List Char × List Char := match cs₂ with
        | '.' :: r =>
          let ds := r.takeWhile Char.isDigit
          if ds.isEmpty then ([], cs₂) else ('.' :: ds, r.drop ds.length)
        | _ => ([], cs₂)
      let (expPart, cs₄) := parseJExp cs₃
      some (sign ++ intPart ++ fracPart ++ expPart, cs₄)

/-- Insert a key into a JSON object the way Python builds its dict:
a repeated key replaces the value in place, otherwise append. -/
def dictInsert (kvs : List (String × PyVal)) (k : String) (v : PyVal) :
    List (String × PyVal) :=
  if (kvs.map (·.1)).contains k then
    kvs.map fun kv => if kv.1 = k then (k, v) else kv
  else kvs ++ [(k, v)]

mutual

/-- Parse one JSON value (leading whitespace allowed). -/
def parseJValue (fuel : Nat) (cs : List Char) : Option (PyVal × List Char) :=
  match fuel with
  | 0 => none
  | fuel + 1 =>
    let cs := cs.dropWhile isJsonWs
    match cs with
    | '{' :: r => parseJMembers fuel (r.dropWhile isJsonWs) [] true
    | '[' :: r => parseJElems fuel (r.dropWhile isJsonWs) [] true
    | '"' :: r => (parseJString r).map fun (s, rest) => (.str ⟨s⟩, rest)
    | 't' :: 'r' :: 'u' :: 'e' :: r => some (.pybool true, r)
    | 'f' :: 'a' :: 'l' :: 's' :: 'e' :: r => some (.pybool false, r)
    | 'n' :: 'u' :: 'l' :: 'l' :: r => some (.pynull, r)
    | c :: _ =>
      if c = '-' ∨ c.isDigit then
        (parseJNumber cs).map fun (lex, rest) => (.num ⟨lex⟩, rest)
      else none
    | [] => none

/-- Parse object members; `first` is true right after the `{`. -/
def parseJMembers (fuel : Nat) (cs : List Char)
    (acc : List (String × PyVal)) (first : Bool) : Option (PyVal × List Char) :=
  match fuel with
  | 0 => none
  | fuel + 1 =>
    match cs, first with
    | '}' :: r, true => some (.dict acc, r)
    | _, _ =>
      match cs with
      | '"' :: r =>
        match parseJString r with
        | none => none
        | some (k, r₁) =>
          match (r₁.dropWhile isJsonWs) with
          | ':' :: r₂ =>
            match parseJValue fuel r₂ with
            | none => none
            | some (v, r₃) =>
              let acc := dictInsert acc ⟨k⟩ v
              match r₃.dropWhile isJsonWs with
              | ',' :: r₄ => parseJMembers fuel (r₄.dropWhile isJsonWs) acc false
              | '}' :: r₄ => some (.dict acc, r₄)
              | _ => none
          | _ => none
      | _ => none

/-- Parse array elements; `first` is true right after the `[`. -/
def parseJElems (fuel : Nat) (cs : List Char)
    (acc : List PyVal) (first : Bool) : Option (PyVal × List Char) :=
  match fuel with
  | 0 => none
  | fuel + 1 =>
    match cs, first with
    | ']' :: r, true => some (.list acc.reverse, r)
    | _, _ =>
      match parseJValue fuel cs with
      | none => none
      | some (v, r) =>
        match r.dropWhile isJsonWs with
        | ',' :: r₁ => parseJElems fuel r₁ (v :: acc) false
        | ']' :: r₁ => some (.list (v :: acc).reverse, r₁)
        | _ => none

end

/-- Model of Python `json.loads`: parse a single value and require only
whitespace after it. -/
def json_loads (s : String) : Option PyVal :=
  match parseJValue (s.data.length + 1) s.data with
  | some (v, rest) => if (rest.dropWhile isJsonWs).isEmpty then some v else none
  | none => none

/-! ## `_extract_json_from_text` and `_safe_parse_json_block` -/

inductive JErr where
  /-- `RuntimeError("No text available to extract JSON from.")` -/
  | noTextAvail
  /-- `RuntimeError("Could not find JSON object boundaries in text.")` -/
  | boundary
  /-- `RuntimeError("JSON decode error: …")`, carrying the offending substring. -/
  | decodeError (js : String)
deriving DecidableEq

/-- `_extract_json_from_text` on a character list: the segment from the first
`{` to the last `}` (`maybe_text.find("{")` / `maybe_text.rfind("}")`),
requiring the last `}` to come strictly after the first `{`. -/
def extractJsonL (l : List Char) : Except JErr (List Char) :=
  if l.isEmpty then .error .noTextAvail
  else
    let a := l.dropWhile (· != '\x7b')
    let b := (a.reverse.dropWhile (· != '\x7d')).reverse
    if 2 ≤ b.length then .ok b else .error .boundary

/-- `_extract_json_from_text` on strings. -/
def extract_json_from_text (s : String) : Except JErr String :=
  (extractJsonL s.data).map fun l => ⟨l⟩

/-- `_safe_parse_json_block`: strip, remove a leading code fence (strip all
backticks from both ends, then delete the first occurrence of `"json"`),
extract the brace-delimited segment, and strict-parse it. -/
def safe_parse_json_block (s : String) : Except JErr PyVal :=
  let c0 := stripL s.data
  let c := if ['\x60', '\x60', '\x60'].isPrefixOf c0 then
             stripL (replaceFirstL "json".data (stripCharL '\x60' c0))
           else c0
  match extractJsonL c with
  | .error e => .error e
  | .ok js =>
    match json_loads ⟨js⟩ with
    | some v => .ok v
    | none => .error (.decodeError ⟨js⟩)

/-! ## Regex scanners used by the tolerant extractor

Each scanner implements the leftmost, backtracking-greedy semantics of the
specific Python pattern it embeds.  `searchFrom` tries every start position
left to right, like `re.search`; `findAllFrom` additionally continues after
each (non-empty) match, like `re.findall`. -/

/-- `re.search`: first start position where `matchAt` succeeds. -/
def searchFrom (matchAt : List Char → Option (List Char)) :
    List Char → Option (List Char)
  | [] => matchAt []
  | c :: cs =>
    match matchAt (c :: cs) with
    | some m => some m
    | none => searchFrom matchAt cs

/-- `re.findall` for patterns whose matches are non-empty: scan left to
right, resuming after each match. -/
def findAllFrom (matchAt : List Char → Option (List Char)) :
    Nat → List Char → List (List Char)
  | 0, _ => []
  | _ + 1, [] => []
  | fuel + 1, c :: cs =>
    match matchAt (c :: cs) with
    | some m => m :: findAllFrom matchAt fuel ((c :: cs).drop (max m.length 1))
    | none => findAllFrom matchAt fuel cs

/-- Character class `[A-Za-z0-9._%+-]` (email local part). -/
def emailLocalClass (c : Char) : Bool :=
  c.isAlpha || c.isDigit || c == '.' || c == '_' || c == '%' || c == '+' || c == '-'

/-- Character class `[A-Za-z0-9.-]` (email domain part). -/
def emailDomainClass (c : Char) : Bool :=
  c.isAlpha || c.isDigit || c == '.' || c == '-'

/-- Match `[A-Za-z0-9._%+-]+@[A-Za-z0-9.-]+\.[A-Za-z]{2,}` anchored at the
start of `cs`.  The domain part is greedy with backtracking: the dot is
placed at the rightmost position of the domain run that leaves at least two
letters after it. -/
def emailMatchAt (cs : List Char) : Option (List Char) :=
  let locals := cs.takeWhile emailLocalClass
  if locals.isEmpty then none
  else
    match cs.drop locals.length with
    | '@' :: rest =>
      let dom := rest.takeWhile emailDomainClass
      let tld (k : Nat) : List Char := (dom.drop (k + 1)).takeWhile Char.isAlpha
      match ((List.range dom.length).reverse).find?
          (fun k => 1 ≤ k && dom.getD k ' ' == '.' && 2 ≤ (tld k).length) with
      | some k => some (locals ++ '@' :: (dom.take k ++ '.' :: tld k))
      | none => none
    | _ => none

/-- `_email_re = re.compile(r"[A-Za-z0-9._%+-]+@[A-Za-z0-9.-]+\.[A-Za-z]{2,}")`,
`re.search` semantics. -/
def emailSearch (s : String) : Option String :=
  (searchFrom emailMatchAt s.data).map fun l => ⟨l⟩

/-- `_email_re.findall`. -/
def emailFindAll (s : String) : List String :=
  (findAllFrom emailMatchAt (s.data.length + 1) s.data).map fun l => ⟨l⟩

/-- Character class `[\d\-\s]` of the phone pattern. -/
def phoneClass (c : Char) : Bool := c.isDigit || c == '-' || isPyWs c

/-- Match `\+?\d[\d\-\s]{6,}\d` anchored at the start of `cs`.  The middle
run is greedy with backtracking: the final digit is the rightmost digit of
the run that leaves at least six characters before it. -/
def phoneCore (cs : List Char) : Option (List Char) :=
  match cs with
  | d :: rest =>
    if d.isDigit then
      let mid := rest.takeWhile phoneClass
      match ((List.range mid.length).reverse).find?
          (fun j => 6 ≤ j && (mid.getD j ' ').isDigit) with
      | some j => some (d :: (mid.take j ++ [mid.getD j ' ']))
      | none => none
    else none
  | [] => none

def phoneMatchAt (cs : List Char) : Option (List Char) :=
  match cs with
  | '+' :: rest => (phoneCore rest).map ('+' :: ·)
  | _ => phoneCore cs

/-- `_phone_re = re.compile(r"(\+?\d[\d\-\s]{6,}\d)")`, `re.search`. -/
def phoneSearch (s : String) : Option String :=
  (searchFrom phoneMatchAt s.data).map fun l => ⟨l⟩

/-- `_phone_re.findall`. -/
def phoneFindAll (s : String) : List String :=
  (findAllFrom phoneMatchAt (s.data.length + 1) s.data).map fun l => ⟨l⟩

/-- Case-insensitive literal match; returns the remainder. -/
def matchCI : List Char → List Char → Option (List Char)
  | [], cs => some cs
  | _ :: _, [] => none
  | p :: ps, c :: cs => if p.toLower == c.toLower then matchCI ps cs else none

/-- After a matched key, consume `\s*:\s*` and then `"([^"]+)"`; returns the
capture group (at least one character, up to the next quote). -/
def keyColonQuoted (r1 : List Char) : Option (List Char) :=
  match r1.dropWhile isPyWs with
  | ':' :: r2 =>
    match r2.dropWhile isPyWs with
    | '"' :: r3 =>
      let v := r3.takeWhile (· != '"')
      if v.isEmpty then none
      else if v.length < r3.length then some v else none
    | _ => none
  | _ => none

/-- Match `"key"\s*:\s*"([^"]+)"` (IGNORECASE) anchored at `cs`; returns the
capture group. -/
def stringFieldMatchAt (key : List Char) (cs : List Char) : Option (List Char) :=
  match matchCI ('"' :: (key ++ ['"'])) cs with
  | some r1 => keyColonQuoted r1
  | none => none

/-- `_extract_string_field(text, key_name)`: search the pattern and strip the
captured value. -/
def extract_string_field (text : String) (key : String) : Option String :=
  (searchFrom (stringFieldMatchAt key.data) text.data).map fun v => ⟨stripL v⟩

/-- All matches of `"([^"]+)"` over a character list (`re.findall`),
fuel-bounded (any fuel above the input length is enough). -/
def findAllQuotedGo : Nat → List Char → List (List Char)
  | 0, _ => []
  | _ + 1, [] => []
  | fuel + 1, '"' :: rest =>
    let run := rest.takeWhile (· != '"')
    if run.isEmpty then findAllQuotedGo fuel rest
    else if run.length < rest.length then
      run :: findAllQuotedGo fuel (rest.drop (run.length + 1))
    else findAllQuotedGo fuel rest
  | fuel + 1, _ :: rest => findAllQuotedGo fuel rest

def findAllQuoted (l : List Char) : List (List Char) :=
  findAllQuotedGo (l.length + 1) l

/-- Deduplicate preserving first-seen order (`OrderedDict.fromkeys`). -/
def dedupFirst (seen : List String) : List String → List String
  | [] => []
  | x :: xs => if x ∈ seen then dedupFirst seen xs
               else x :: dedupFirst (x :: seen) xs

/-- The bracket contents matched by
`rf'"{key}"\s*:\s*\[([^\]]*)\]'` (IGNORECASE | DOTALL), if any. -/
def bracketInnerMatchAt (key : List Char) (cs : List Char) : Option (List Char) :=
  match matchCI ('"' :: (key ++ ['"'])) cs with
  | some r1 =>
    match r1.dropWhile isPyWs with
    | ':' :: r2 =>
      match r2.dropWhile isPyWs with
      | '[' :: r3 =>
        let inner := r3.takeWhile (· != ']')
        if inner.length < r3.length then some inner else none
      | _ => none
    | _ => none
  | none => none

/-- Python `t.strip('" ')`: strip quotes and spaces from both ends. -/
def stripWrap (l : List Char) : List Char :=
  ((l.dropWhile fun c => c == '"' || c == ' ').reverse.dropWhile
    (fun c => c == '"' || c == ' ')).reverse

/-- The raw item list of `_extract_list_from_brackets`, before
deduplication: all quoted substrings of the bracket contents, else the
comma-split tokens with quote/space stripping. -/
def bracketItems (text : String) (key : String) : List String :=
  match searchFrom (bracketInnerMatchAt key.data) text.data with
  | none => []
  | some inner =>
    let quoted := findAllQuoted inner
    if quoted.isEmpty then
      let tokens := ((inner.splitOn ',').map stripL).filter (¬ ·.isEmpty)
      tokens.map fun t => ⟨stripL (stripWrap t)⟩
    else quoted.map fun l => ⟨l⟩

/-- `_extract_list_from_brackets(text, key_name)`. -/
def extract_list_from_brackets (text : String) (key : String) : List String :=
  dedupFirst [] (bracketItems text key)

/-- Match `"total_experience_years"\s*:\s*([0-9]+(?:\.[0-9]+)?)` (no flags,
case-sensitive) anchored at `cs`; returns the captured number lexeme. -/
def expYearsMatchAt (cs : List Char) : Option (List Char) :=
  if "\"total_experience_years\"".data.isPrefixOf cs then
    let r1 := (cs.drop 24).dropWhile isPyWs
    match r1 with
    | ':' :: r2 =>
      let r3 := r2.dropWhile isPyWs
      let ds := r3.takeWhile Char.isDigit
      if ds.isEmpty then none
      else
        match r3.drop ds.length with
        | '.' :: r4 =>
          let fs := r4.takeWhile Char.isDigit
          if fs.isEmpty then some ds else some (ds ++ '.' :: fs)
        | _ => some ds
    | _ => none
  else none

def expYearsSearch (s : String) : Option String :=
  (searchFrom expYearsMatchAt s.data).map fun l => ⟨l⟩

/-- Match one occurrence of
`"degree"\s*:\s*"([^"]+)"\s*,\s*"institute"\s*:\s*"([^"]+)"` (IGNORECASE)
anchored at `cs`; returns both capture groups and the remainder after the
whole match. -/
def eduMatchAt (cs : List Char) : Option (String × String × List Char) :=
  match matchCI "\"degree\"".data cs with
  | none => none
  | some r1 =>
    match r1.dropWhile isPyWs with
    | ':' :: r2 =>
      match r2.dropWhile isPyWs with
      | '"' :: r3 =>
        let d := r3.takeWhile (· != '"')
        if d.isEmpty ∨ ¬ d.length < r3.length then none
        else
          let r4 := (r3.drop (d.length + 1)).dropWhile isPyWs
          match r4 with
          | ',' :: r5 =>
            match matchCI "\"institute\"".data (r5.dropWhile isPyWs) with
            | none => none
            | some r6 =>
              match r6.dropWhile isPyWs with
              | ':' :: r7 =>
                match r7.dropWhile isPyWs with
                | '"' :: r8 =>
                  let i := r8.takeWhile (· != '"')
                  if i.isEmpty ∨ ¬ i.length < r8.length then none
                  else some (⟨d⟩, ⟨i⟩, r8.drop (i.length + 1))
                | _ => none
              | _ => none
          | _ => none
      | _ => none
    | _ => none

/-- `edu_pattern.findall(raw_text)`: non-overlapping degree/institute pairs,
scanning left to right. -/
def eduFindAllGo : Nat → List Char → List (String × String)
  | 0, _ => []
  | _ + 1, [] => []
  | fuel + 1, c :: cs =>
    match eduMatchAt (c :: cs) with
    | some (d, i, rest) => (d, i) :: eduFindAllGo fuel rest
    | none => eduFindAllGo fuel cs

def eduFindAll (s : String) : List (String × String) :=
  eduFindAllGo (s.data.length + 1) s.data

/-! ## `tolerant_parse_raw_text` and `fallback_parse_text` -/

/-- The ten top-level keys of the record every dict-building stage assembles
(the spec's CandidateRecord shape). -/
def candidateKeys : List String :=
  ["full_name", "email", "phone", "total_experience_years", "current_role",
   "current_company", "location", "skills", "education", "experience"]

/-- One education entry of the tolerant parser. -/
def eduEntry (d i : String) : PyVal :=
  .dict [("degree", .str d), ("institute", .str i),
         ("start_year", .pynull), ("end_year", .pynull)]

/-- `tolerant_parse_raw_text(raw_text, resume_text)`.  Total: the Python
function performs no operation that can raise. -/
def tolerant_parse_raw_text (raw_text resume_text : String) : PyVal :=
  let fn0 := extract_string_field raw_text "full_name"
  -- `if not parsed["full_name"]:` — falsy means `None` or the empty string;
  -- if no non-blank resume line exists either, the falsy value is kept.
  let full_name : PyVal :=
    match fn0 with
    | some v =>
      if v ≠ "" then .str v
      else match firstNonBlankLine resume_text with
           | some l => .str l
           | none => .str v
    | none =>
      match firstNonBlankLine resume_text with
      | some l => .str l
      | none => .pynull
  let email : PyVal :=
    match emailSearch raw_text with
    | some m => .str m
    | none => match emailSearch resume_text with
              | some m => .str m
              | none => .pynull
  let phone : PyVal :=
    match phoneSearch raw_text with
    | some m => .str m
    | none => match phoneSearch resume_text with
              | some m => .str m
              | none => .pynull
  let skills : PyVal := .list ((extract_list_from_brackets raw_text "skills").map .str)
  let expY : PyVal :=
    match expYearsSearch raw_text with
    | some lex => .num lex
    | none => .pynull
  let strField (k : String) : PyVal :=
    match extract_string_field raw_text k with
    | some v => .str v
    | none => .pynull
  let education : PyVal := .list ((eduFindAll raw_text).map fun di => eduEntry di.1 di.2)
  .dict [("full_name", full_name), ("email", email), ("phone", phone),
         ("total_experience_years", expY), ("current_role", strField "current_role"),
         ("current_company", strField "current_company"),
         ("location", strField "location"), ("skills", skills),
         ("education", education), ("experience", .list [])]

/-- `fallback_parse_text(resume_text)` — the minimal fallback parser. -/
def fallback_parse_text (resume_text : String) : PyVal :=
  let emails := emailFindAll resume_text
  let phones := phoneFindAll resume_text
  let first_line : PyVal :=
    match firstNonBlankLine resume_text with
    | some l => .str l
    | none => .pynull
  .dict [("full_name", first_line),
         ("email", match emails.head? with | some e => .str e | none => .pynull),
         ("phone", match phones.head? with | some p => .str p | none => .pynull),
         ("total_experience_years", .pynull), ("current_role", .pynull),
         ("current_company", .pynull), ("location", .pynull),
         ("skills", .list []), ("education", .list []),
         ("experience", .list [])]

/-! ## `_call_gemini_with_retries` : the bounded-retry remote call

The network call is abstracted as an oracle `call : Nat → Except String R`
indexed by the 1-based attempt number; an error is the exception's string.
The model returns the outcome together with the number of attempts actually
performed and the list of back-off delays slept between attempts. -/

inductive GeminiError where
  /-- `RuntimeError("GEMINI_API_KEY is not set!")` -/
  | missingCredential
  /-- `RuntimeError(f"Gemini call failed after {attempts} attempts: {last}")` -/
  | retriesExhausted (attempts : Nat) (last : Option String)
  /-- `RuntimeError("Gemini returned no textual response.")` -/
  | noText
  /-- An exception escaping the envelope probing (e.g. `TypeError` from a
  non-container response body). -/
  | uncaught
deriving DecidableEq

/-- `str(exception)` for the errors above, as fed to the tolerant parser by
`upload_resume`'s fallback path. -/
def GeminiError.message : GeminiError → String
  | .missingCredential => "GEMINI_API_KEY is not set!"
  | .retriesExhausted n last =>
    "Gemini call failed after " ++ toString n ++ " attempts: " ++
      (match last with | some s => s | none => "None")
  | .noText => "Gemini returned no textual response."
  | .uncaught => "TypeError"

/-- The retry loop body: `rem` attempts remain out of `attempts` total;
returns (outcome, attempts performed, sleeps performed). -/
def retryGo {R : Type} (call : Nat → Except String R) (attempts : Nat)
    (backoff : ℚ) : Nat → Option String → Except (Option String) R × Nat × List ℚ
  | 0, last => (.error last, 0, [])
  | rem + 1, _ =>
    let i := attempts - rem   -- current 1-based attempt number
    match call i with
    | .ok r => (.ok r, 1, [])
    | .error e =>
      let (res, n, sleeps) := retryGo call attempts backoff rem (some e)
      (res, n + 1, (if 0 < rem then [backoff * i] else []) ++ sleeps)

/-- Python truthiness of `GEMINI_API_KEY` (`None` or empty string is falsy). -/
def keyMissing : Option String → Bool
  | none => true
  | some s => s == ""

/-- `_call_gemini_with_retries(prompt, attempts=3, backoff=1.0)`.  The
`prompt` only feeds the oracle, so it is not a parameter of the model. -/
def call_gemini_with_retries {R : Type} (key : Option String)
    (call : Nat → Except String R) (attempts : Nat) (backoff : ℚ) :
    Except GeminiError R × Nat × List ℚ :=
  if keyMissing key then (.error .missingCredential, 0, [])
  else
    match retryGo call attempts backoff attempts none with
    | (.ok r, n, s) => (.ok r, n, s)
    | (.error last, n, s) => (.error (.retriesExhausted attempts last), n, s)

/-! ## Python dynamic-attribute semantics for the envelope probing -/

/-- `x in container` (may raise `TypeError` on non-containers). -/
def pyContains (container : PyVal) (x : String) : Except Unit Bool :=
  match container with
  | .dict kvs => .ok ((kvs.map (·.1)).contains x)
  | .list xs => .ok (xs.any fun v => match v with | .str s => s == x | _ => false)
  | .str c => .ok (containsSubL x.data c.data)
  | _ => .error ()

/-- `container[key]` for a string key (raises on lists, strings, scalars and
missing keys). -/
def pySubscript (v : PyVal) (k : String) : Except Unit PyVal :=
  match v with
  | .dict kvs => match kvs.lookup k with
                 | some x => .ok x
                 | none => .error ()
  | _ => .error ()

/-- `container[0]` (lists: first element or `IndexError`; strings: first
character; dicts and scalars raise). -/
def pySubscriptZero (v : PyVal) : Except Unit PyVal :=
  match v with
  | .list xs => match xs.head? with
                | some x => .ok x
                | none => .error ()
  | .str s => match s.data.head? with
              | some c => .ok (.str ⟨[c]⟩)
              | none => .error ()
  | _ => .error ()

/-- `obj.get(key, default)` — `AttributeError` unless `obj` is a dict. -/
def pyGetDefault (v : PyVal) (k : String) (dflt : PyVal) : Except Unit PyVal :=
  match v with
  | .dict kvs => .ok ((kvs.lookup k).getD dflt)
  | _ => .error ()

/-- Python truthiness. -/
def pyTruthy : PyVal → Bool
  | .pynull => false
  | .pybool b => b
  | .num lex => lex.data.any fun c => c.isDigit && c != '0'
  | .str s => s ≠ ""
  | .list xs => ¬ xs.isEmpty
  | .dict kvs => ¬ kvs.isEmpty

/-- `for x in container` — the iterated values (dicts iterate their keys;
scalars raise `TypeError`). -/
def pyIter : PyVal → Except Unit (List PyVal)
  | .list xs => .ok xs
  | .str s => .ok (s.data.map fun c => .str ⟨[c]⟩)
  | .dict kvs => .ok (kvs.map fun kv => .str kv.1)
  | _ => .error ()

/-! ## The envelope probing of `parse_resume_with_gemini` -/

/-- `"\n".join(p.get("text", "") for p in parts if "text" in p)`: `none`
models an exception raised while filtering, getting, or joining (a fragment
that is not a string makes `join` raise `TypeError`). -/
def joinTexts : List PyVal → Option (List String)
  | [] => some []
  | p :: ps =>
    match pyContains p "text" with
    | .error _ => none
    | .ok false => joinTexts ps
    | .ok true =>
      match pyGetDefault p "text" (.str "") with
      | .error _ => none
      | .ok (.str s) => (joinTexts ps).map (s :: ·)
      | .ok _ => none

/-- The `candidates[0]["content"]` shape (the body of the first `try`);
`none` models any exception, which the `except: pass` swallows. -/
def probeCandidates (data : PyVal) : Option String := do
  let cands ← (pySubscript data "candidates").toOption
  let c0 ← (pySubscriptZero cands).toOption
  let content ← (pySubscript c0 "content").toOption
  let partsRaw ← (pyGetDefault content "parts" .pynull).toOption
  let parts := if pyTruthy partsRaw then partsRaw else .list []
  let elems ← (pyIter parts).toOption
  let texts ← joinTexts elems
  some (pyStrip (String.intercalate "\n" texts))

/-- The `for out in data["outputs"]` loop.  `tc` is the running
`text_content`; an exception aborts the remaining iterations but keeps the
value assigned so far (`except: pass` around the whole loop). -/
def probeOutputsGo : List PyVal → Option String → Option String
  | [], tc => tc
  | out :: rest, tc =>
    match pyGetDefault out "content" (.dict []) with
    | .error _ => tc
    | .ok content =>
      match content with
      | .dict kvs =>
        let partsRaw := (kvs.lookup "parts").getD .pynull
        if pyTruthy partsRaw then
          match pyIter partsRaw with
          | .error _ => tc
          | .ok elems =>
            match joinTexts elems with
            | none => tc
            | some texts =>
              probeOutputsGo rest (some (pyStrip (String.intercalate "\n" texts)))
        else
          match kvs.lookup "text" with
          | some (.str s) => probeOutputsGo rest (some (pyStrip s))
          | some _ => tc       -- `.strip()` on a non-string raises
          | none => probeOutputsGo rest tc
      | _ => probeOutputsGo rest tc

/-- `text_content` truthiness (`if not text_content`). -/
def tcTruthy : Option String → Bool
  | some s => s ≠ ""
  | none => false

/-- Lines 279–307 of `resume_extract.py`: extract the model text from the
response envelope, probing the `candidates` shape then the `outputs` shape;
raise `noText` if the final `text_content` is falsy. -/
def read_model_text (data : PyVal) : Except GeminiError String :=
  match pyContains data "candidates" with
  | .error _ => .error .uncaught
  | .ok b1 =>
    let tc1 : Option String := if b1 then probeCandidates data else none
    if tcTruthy tc1 then
      match tc1 with
      | some s => .ok s
      | none => .error .noText
    else
      match pyContains data "outputs" with
      | .error _ => .error .uncaught
      | .ok b2 =>
        let tc2 : Option String :=
          if b2 then
            match pySubscript data "outputs" with
            | .error _ => tc1
            | .ok outsVal =>
              match pyIter outsVal with
              | .error _ => tc1
              | .ok outs => probeOutputsGo outs tc1
          else tc1
        match tc2 with
        | some s => if s = "" then .error .noText else .ok s
        | none => .error .noText

/-! ## The pipeline of `parse_resume_with_gemini` and `upload_resume` -/

/-- Lines 311–329: strict JSON parse of the model text, falling back to the
tolerant parser (which is total, so the "ultimate fallback" line is
unreachable). -/
def gemini_parse_text (raw_text resume_text : String) : PyVal :=
  match safe_parse_json_block raw_text with
  | .ok d => d
  | .error _ => tolerant_parse_raw_text raw_text resume_text

/-- `parse_resume_with_gemini(resume_text)` with the credential and the
remote call abstracted. -/
def parse_resume_with_gemini (key : Option String)
    (call : Nat → Except String PyVal) (resume_text : String) :
    Except GeminiError PyVal :=
  match (call_gemini_with_retries key call 3 1).1 with
  | .error e => .error e
  | .ok data =>
    match read_model_text data with
    | .error e => .error e
    | .ok raw_text => .ok (gemini_parse_text raw_text resume_text)

/-- The extraction portion of `upload_resume` (`main.py` lines 109–128): on
any error from the Gemini pipeline, the orchestrator feeds
`str(gemini_error)` and the document text to the tolerant parser, then
guards the result to be a dict. -/
def upload_parse (key : Option String) (call : Nat → Except String PyVal)
    (resume_text : String) : PyVal :=
  match parse_resume_with_gemini key call resume_text with
  | .ok parsed => if parsed.isDict then parsed else fallback_parse_text resume_text
  | .error e => tolerant_parse_raw_text e.message resume_text

/-! ## Shared lemmas -/

/-- Whatever the inputs, the tolerant parser assembles a dict with exactly
the ten CandidateRecord keys, in order. -/
theorem tolerant_keys_eq (raw resume : String) :
    pyKeys (tolerant_parse_raw_text raw resume) = candidateKeys := rfl

/-- The minimal fallback parser likewise. -/
theorem fallback_keys_eq (resume : String) :
    pyKeys (fallback_parse_text resume) = candidateKeys := rfl

/-! ## Claims -/

/-- C3: for every pair of input strings — including empty strings, strings
with unbalanced brackets, and strings with no pattern matches —
`tolerant_parse_raw_text` terminates normally (it is a total Lean function;
the Python body performs no raising operation) and returns a mapping with
all CandidateRecord top-level keys, each unmatched field being null or an
empty list, as witnessed concretely by the empty-input record. -/
theorem claim_C3 :
    (∀ raw resume : String,
      pyKeys (tolerant_parse_raw_text raw resume) = candidateKeys) ∧
    tolerant_parse_raw_text "" "" =
      .dict [("full_name", .pynull), ("email", .pynull), ("phone", .pynull),
             ("total_experience_years", .pynull), ("current_role", .pynull),
             ("current_company", .pynull), ("location", .pynull),
             ("skills", .list []), ("education", .list []),
             ("experience", .list [])] :=
  ⟨fun _ _ => tolerant_keys_eq _ _, rfl⟩

/-- C9: with the API key absent, the model-call stage fails with the
missing-credential error having performed zero attempts and zero sleeps
(no network activity, whatever the oracle), and the orchestrator's result
is exactly the tolerant parser's record built from the error message and
the document text. -/
theorem claim_C9 :
    ∀ (call : Nat → Except String PyVal) (resume : String) (attempts : Nat)
      (backoff : ℚ),
      call_gemini_with_retries (R := PyVal) none call attempts backoff =
        (.error .missingCredential, 0, []) ∧
      upload_parse none call resume =
        tolerant_parse_raw_text "GEMINI_API_KEY is not set!" resume :=
  fun _ _ _ _ => ⟨rfl, rfl⟩

/-- C10: a `"full_name": ""` (and role/company/location) empty-string field
is treated exactly like an absent field: the capture requires at least one
character, so `full_name` falls back to the first non-blank document line
and the three simple fields become null. -/
theorem claim_C10 :
    (∀ doc : String,
      pyLookup (tolerant_parse_raw_text
          "\x7b\"full_name\": \"\", \"current_role\": \"\", \"current_company\": \"\", \"location\": \"\"\x7d"
          doc) "full_name" =
        pyLookup (tolerant_parse_raw_text "" doc) "full_name") ∧
    (∀ doc : String,
      pyLookup (tolerant_parse_raw_text
          "\x7b\"full_name\": \"\", \"current_role\": \"\", \"current_company\": \"\", \"location\": \"\"\x7d"
          doc) "current_role" = some .pynull ∧
      pyLookup (tolerant_parse_raw_text
          "\x7b\"full_name\": \"\", \"current_role\": \"\", \"current_company\": \"\", \"location\": \"\"\x7d"
          doc) "current_company" = some .pynull ∧
      pyLookup (tolerant_parse_raw_text
          "\x7b\"full_name\": \"\", \"current_role\": \"\", \"current_company\": \"\", \"location\": \"\"\x7d"
          doc) "location" = some .pynull) ∧
    extract_string_field
      "\x7b\"full_name\": \"\", \"current_role\": \"\", \"current_company\": \"\", \"location\": \"\"\x7d"
      "full_name" = none ∧
    pyLookup (tolerant_parse_raw_text
        "\x7b\"full_name\": \"\", \"current_role\": \"\", \"current_company\": \"\", \"location\": \"\"\x7d"
        "John Doe\njd@x.io") "full_name" = some (.str "John Doe") :=
  ⟨fun _ => rfl, fun _ => ⟨rfl, rfl, rfl⟩, rfl, rfl⟩

/-- C1 fails as stated: a model output that is a valid JSON object with
only an `email` key passes the strict-JSON path unchanged, so
`parse_resume_with_gemini`'s strict path returns a partial mapping without
`full_name` (or any of the other keys). -/
theorem claim_C1_counterexample :
    safe_parse_json_block "\x7b\"email\": null\x7d" = .ok (.dict [("email", .pynull)]) ∧
    gemini_parse_text "\x7b\"email\": null\x7d" "resume text" = .dict [("email", .pynull)] ∧
    pyKeys (gemini_parse_text "\x7b\"email\": null\x7d" "resume text") = ["email"] ∧
    ¬ "full_name" ∈ pyKeys (gemini_parse_text "\x7b\"email\": null\x7d" "resume text") :=
  ⟨rfl, rfl, rfl, by decide⟩

/-- C1 amended: the tolerant and minimal-fallback stages always return all
ten CandidateRecord keys, but the strict-JSON path of
`parse_resume_with_gemini` returns the parsed JSON object unchanged — it
contains exactly the keys the model emitted and may be a partial shape. -/
theorem claim_C1_amended :
    (∀ raw resume : String,
      pyKeys (tolerant_parse_raw_text raw resume) = candidateKeys) ∧
    (∀ resume : String, pyKeys (fallback_parse_text resume) = candidateKeys) ∧
    (∀ (raw resume : String) (d : PyVal),
      safe_parse_json_block raw = .ok d → gemini_parse_text raw resume = d) :=
  ⟨fun _ _ => tolerant_keys_eq _ _, fun _ => fallback_keys_eq _,
   fun _ _ _ h => by unfold gemini_parse_text; rw [h]⟩

/-- Witness for C1 amended at a concrete input. -/
theorem claim_C1_witness :
    gemini_parse_text "\x7b\"a\": 1\x7d" "" = .dict [("a", .num "1")] :=
  claim_C1_amended.2.2 "\x7b\"a\": 1\x7d" "" (.dict [("a", .num "1")]) rfl

/-- The retry loop never performs more attempts than remain. -/
theorem retryGo_count_le {R : Type} (call : Nat → Except String R)
    (attempts : Nat) (backoff : ℚ) :
    ∀ (rem : Nat) (last : Option String),
      (retryGo call attempts backoff rem last).2.1 ≤ rem := by
  intro rem
  induction rem with
  | zero => intro last; simp [retryGo]
  | succ n ih =>
    intro last
    cases h : call (attempts - n) with
    | ok r => simp [retryGo, h]
    | error e => simpa [retryGo, h] using ih (some e)

/-- C4: the retry loop performs at most 3 attempts; on fail-fail-succeed it
performs exactly 3 attempts, returns the successful response, and sleeps
`backoff * 1` then `backoff * 2` (non-decreasing for non-negative backoff);
when all 3 attempts fail it raises the exhausted-retries error carrying the
last failure instead of retrying further. -/
theorem claim_C4 :
    (∀ (R : Type) (key : Option String) (call : Nat → Except String R)
       (backoff : ℚ),
      (call_gemini_with_retries key call 3 backoff).2.1 ≤ 3) ∧
    (∀ (R : Type) (key : Option String) (call : Nat → Except String R)
       (backoff : ℚ) (e₁ e₂ : String) (r : R),
      keyMissing key = false → call 1 = .error e₁ → call 2 = .error e₂ →
      call 3 = .ok r →
      call_gemini_with_retries key call 3 backoff =
        (.ok r, 3, [backoff * 1, backoff * 2])) ∧
    (∀ (R : Type) (key : Option String) (call : Nat → Except String R)
       (backoff : ℚ) (f : Nat → String),
      keyMissing key = false → (∀ i, call i = .error (f i)) →
      call_gemini_with_retries key call 3 backoff =
        (.error (.retriesExhausted 3 (some (f 3))), 3,
         [backoff * 1, backoff * 2])) ∧
    (∀ backoff : ℚ, 0 ≤ backoff →
      List.Chain' (· ≤ ·) [backoff * 1, backoff * 2]) := by
  refine ⟨?_, ?_, ?_, ?_⟩
  · intro R key call backoff
    by_cases hk : keyMissing key
    · simp [call_gemini_with_retries, hk]
    · have := retryGo_count_le call 3 backoff 3 none
      simp only [call_gemini_with_retries, hk, Bool.false_eq_true, if_false]
      rcases h : retryGo call 3 backoff 3 none with ⟨res, n, s⟩
      rw [h] at this
      cases res <;> simpa using this
  · intro R key call backoff e₁ e₂ r hk h1 h2 h3
    simp [call_gemini_with_retries, hk, retryGo, h1, h2, h3]
  · intro R key call backoff f hk hf
    simp [call_gemini_with_retries, hk, retryGo, hf 1, hf 2, hf 3]
  · intro backoff hb
    simp only [List.chain'_cons, List.chain'_singleton, and_true]
    nlinarith

/-- Witness for C4 with a concrete oracle that fails twice then succeeds,
and one that always fails. -/
theorem claim_C4_witness :
    call_gemini_with_retries (some "k")
        (fun i => if i < 3 then .error (toString i) else .ok (42 : Nat)) 3 1 =
      (.ok 42, 3, [1 * 1, 1 * 2]) ∧
    call_gemini_with_retries (some "k")
        (fun i => (.error (toString i) : Except String Nat)) 3 1 =
      (.error (.retriesExhausted 3 (some "3")), 3, [1 * 1, 1 * 2]) ∧
    List.Chain' (· ≤ ·) [(1 : ℚ) * 1, 1 * 2] := by
  refine ⟨?_, ?_, ?_⟩
  · exact claim_C4.2.1 Nat (some "k") _ 1 "1" "2" 42 rfl rfl rfl rfl
  · exact claim_C4.2.2.1 Nat (some "k") _ 1 toString rfl (fun _ => rfl)
  · exact claim_C4.2.2.2 1 (by norm_num)

/-- An element produced by `dedupFirst` was not among the already-seen keys. -/
theorem dedupFirst_not_mem_seen :
    ∀ (l seen : List String) (x : String), x ∈ dedupFirst seen l → x ∉ seen := by
  intro l
  induction l with
  | nil => intro seen x hx; simp [dedupFirst] at hx
  | cons a as ih =>
    intro seen x hx
    by_cases ha : a ∈ seen
    · rw [dedupFirst, if_pos ha] at hx
      exact ih seen x hx
    · rw [dedupFirst, if_neg ha] at hx
      rcases List.mem_cons.mp hx with h | h
      · exact h ▸ ha
      · intro hxseen
        exact ih (a :: seen) x h (List.mem_cons_of_mem a hxseen)

/-- `dedupFirst` (the model of `OrderedDict.fromkeys`) yields no duplicates. -/
theorem dedupFirst_nodup : ∀ (l seen : List String), (dedupFirst seen l).Nodup := by
  intro l
  induction l with
  | nil => intro seen; simp [dedupFirst]
  | cons a as ih =>
    intro seen
    by_cases ha : a ∈ seen
    · rw [dedupFirst, if_pos ha]; exact ih seen
    · rw [dedupFirst, if_neg ha]
      refine List.Nodup.cons ?_ (ih (a :: seen))
      intro hmem
      exact dedupFirst_not_mem_seen as (a :: seen) a hmem (List.mem_cons_self a seen)

/-- `dedupFirst` keeps a subsequence of its input (first-seen order). -/
theorem dedupFirst_sublist :
    ∀ (l seen : List String), List.Sublist (dedupFirst seen l) l := by
  intro l
  induction l with
  | nil => intro seen; simp [dedupFirst]
  | cons a as ih =>
    intro seen
    by_cases ha : a ∈ seen
    · rw [dedupFirst, if_pos ha]; exact (ih seen).cons a
    · rw [dedupFirst, if_neg ha]; exact (ih (a :: seen)).cons₂ a

/-- Membership in `dedupFirst`: exactly the unseen elements of the input. -/
theorem dedupFirst_mem_iff :
    ∀ (l seen : List String) (x : String),
      x ∈ dedupFirst seen l ↔ x ∈ l ∧ x ∉ seen := by
  intro l
  induction l with
  | nil => intro seen x; simp [dedupFirst]
  | cons a as ih =>
    intro seen x
    by_cases ha : a ∈ seen
    · rw [dedupFirst, if_pos ha, ih seen x]
      constructor
      · rintro ⟨hl, hs⟩; exact ⟨List.mem_cons_of_mem a hl, hs⟩
      · rintro ⟨hl, hs⟩
        rcases List.mem_cons.mp hl with h | h
        · exact absurd (h ▸ ha) hs
        · exact ⟨h, hs⟩
    · rw [dedupFirst, if_neg ha, List.mem_cons, ih (a :: seen) x]
      constructor
      · rintro (h | ⟨hl, hs⟩)
        · exact ⟨h ▸ List.mem_cons_self a as, h ▸ ha⟩
        · exact ⟨List.mem_cons_of_mem a hl, fun hx => hs (List.mem_cons_of_mem a hx)⟩
      · rintro ⟨hl, hs⟩
        rcases List.mem_cons.mp hl with h | h
        · exact Or.inl h
        · by_cases hxa : x = a
          · exact Or.inl hxa
          · exact Or.inr ⟨h, fun hx => (List.mem_cons.mp hx).elim hxa hs⟩

/-- C6: the skills extractor returns the raw bracket items deduplicated
with first-seen order preserved (no duplicates, a subsequence of the raw
items, same membership); on `"skills": ["Go","Go","Rust"]` the raw items
are `Go, Go, Rust` and the result is `["Go", "Rust"]`. -/
theorem claim_C6 :
    (∀ text key : String,
      (extract_list_from_brackets text key).Nodup ∧
      List.Sublist (extract_list_from_brackets text key) (bracketItems text key) ∧
      (∀ x : String,
        x ∈ extract_list_from_brackets text key ↔ x ∈ bracketItems text key)) ∧
    bracketItems "\"skills\": [\"Go\",\"Go\",\"Rust\"]" "skills" =
      ["Go", "Go", "Rust"] ∧
    extract_list_from_brackets "\"skills\": [\"Go\",\"Go\",\"Rust\"]" "skills" =
      ["Go", "Rust"] := by
  refine ⟨fun text key => ⟨dedupFirst_nodup _ _, dedupFirst_sublist _ _, ?_⟩,
          rfl, rfl⟩
  intro x
  rw [extract_list_from_brackets, dedupFirst_mem_iff]
  simp

/-- Shape of a phone-core match: one leading digit, at least six middle
characters from `[\d\-\s]`, one trailing digit — so at least 8 characters,
at least 2 digits, all characters in the class. -/
theorem phoneCore_shape (cs m : List Char) (h : phoneCore cs = some m) :
    8 ≤ m.length ∧ 2 ≤ (m.filter Char.isDigit).length ∧
      ∀ c ∈ m, phoneClass c = true := by
  match cs with
  | [] => simp [phoneCore] at h
  | d :: rest =>
    rw [phoneCore] at h
    by_cases hd : d.isDigit
    · rw [if_pos hd] at h
      simp only [] at h
      cases hfind : (List.range (rest.takeWhile phoneClass).length).reverse.find?
          (fun j => 6 ≤ j && ((rest.takeWhile phoneClass).getD j ' ').isDigit) with
      | none => rw [hfind] at h; exact absurd h (by simp)
      | some j =>
        rw [hfind] at h
        have hm := Option.some.inj h
        have hpred := List.find?_some hfind
        have hj6 : 6 ≤ j := by
          have := (Bool.and_eq_true _ _).mp hpred |>.1
          simpa using this
        have hdig : ((rest.takeWhile phoneClass).getD j ' ').isDigit = true :=
          (Bool.and_eq_true _ _).mp hpred |>.2
        have hjlt : j < (rest.takeWhile phoneClass).length := by
          have := List.mem_of_find?_eq_some hfind
          rw [List.mem_reverse, List.mem_range] at this
          exact this
        have htakelen : ((rest.takeWhile phoneClass).take j).length = j := by
          rw [List.length_take]
          omega
        have hsing : List.filter Char.isDigit
            [(rest.takeWhile phoneClass).getD j ' '] =
            [(rest.takeWhile phoneClass).getD j ' '] := by
          rw [List.filter_cons, if_pos hdig, List.filter_nil]
        refine ⟨?_, ?_, ?_⟩
        · rw [← hm]
          simp only [List.length_cons, List.length_append, htakelen]
          simp only [List.length_cons, List.length_nil]
          omega
        · rw [← hm]
          rw [List.filter_cons, if_pos hd, List.length_cons,
            List.filter_append, hsing, List.length_append]
          simp only [List.length_cons, List.length_nil]
          omega
        · rw [← hm]
          intro c hc
          rcases List.mem_cons.mp hc with hceq | hc₂
          · subst hceq; simp [phoneClass, hd]
          · rcases List.mem_append.mp hc₂ with hc₃ | hc₄
            · exact List.mem_takeWhile_imp (List.mem_of_mem_take hc₃)
            · have hceq : c = (rest.takeWhile phoneClass).getD j ' ' := by
                simpa using hc₄
              have hdig2 : (((rest.takeWhile phoneClass))[j]?.getD ' ').isDigit = true := by
                simpa using hdig
              rw [hceq]
              simp [phoneClass, hdig, hdig2]
    · rw [if_neg hd] at h
      exact absurd h (by simp)

/-- Shape of a full phone match: an optional leading `+` before the core. -/
theorem phoneMatch_shape (cs m : List Char) (h : phoneMatchAt cs = some m) :
    8 ≤ m.length ∧ 2 ≤ (m.filter Char.isDigit).length ∧
      ∀ c ∈ m, c = '+' ∨ phoneClass c = true := by
  unfold phoneMatchAt at h
  split at h
  · rename_i rest
    cases hcore : phoneCore rest with
    | none => rw [hcore] at h; exact absurd h (by simp)
    | some m' =>
      rw [hcore] at h
      have hm : '+' :: m' = m := by simpa using h
      obtain ⟨hlen, hdig, hmem⟩ := phoneCore_shape rest m' hcore
      refine ⟨?_, ?_, ?_⟩
      · rw [← hm]; simp only [List.length_cons]; omega
      · rw [← hm]
        have hp : ¬ ('+' : Char).isDigit = true := by decide
        simp only [List.filter_cons, hp, if_false, Bool.false_eq_true]
        omega
      · rw [← hm]
        intro c hc
        rcases List.mem_cons.mp hc with h₁ | h₂
        · exact Or.inl h₁
        · exact Or.inr (hmem c h₂)
  · obtain ⟨hlen, hdig, hmem⟩ := phoneCore_shape cs m h
    exact ⟨hlen, hdig, fun c hc => Or.inr (hmem c hc)⟩

/-- C7 fails as stated: the pattern requires at least 8 matched characters,
not at least 8 digits.  `"12-45-78"` contains only 6 digits in total, yet
the tolerant extractor sets a non-null phone from it. -/
theorem claim_C7_counterexample :
    pyLookup (tolerant_parse_raw_text "" "12-45-78") "phone" =
      some (.str "12-45-78") ∧
    ("12-45-78".data.filter Char.isDigit).length = 6 ∧
    phoneSearch "12-45-78" = some "12-45-78" :=
  ⟨rfl, by decide, rfl⟩

/-- C7 amended: the phone pattern matches an optional leading `+`, a digit,
at least six characters of digits/hyphens/whitespace and a final digit — so
at least 8 characters and at least 2 digits (not at least 8 digits); the
free model text is searched first and the document text only if it has no
match; when neither matches, the phone field is null. -/
theorem claim_C7_amended :
    (∀ cs m : List Char, phoneMatchAt cs = some m →
      8 ≤ m.length ∧ 2 ≤ (m.filter Char.isDigit).length ∧
        ∀ c ∈ m, c = '+' ∨ phoneClass c = true) ∧
    (∀ raw resume m, phoneSearch raw = some m →
      pyLookup (tolerant_parse_raw_text raw resume) "phone" = some (.str m)) ∧
    (∀ raw resume m, phoneSearch raw = none → phoneSearch resume = some m →
      pyLookup (tolerant_parse_raw_text raw resume) "phone" = some (.str m)) ∧
    (∀ raw resume, phoneSearch raw = none → phoneSearch resume = none →
      pyLookup (tolerant_parse_raw_text raw resume) "phone" = some .pynull) := by
  refine ⟨phoneMatch_shape, ?_, ?_, ?_⟩
  · intro raw resume m h
    simp [tolerant_parse_raw_text, pyLookup, List.lookup, h]
  · intro raw resume m h h2
    simp [tolerant_parse_raw_text, pyLookup, List.lookup, h, h2]
  · intro raw resume h h2
    simp [tolerant_parse_raw_text, pyLookup, List.lookup, h, h2]

/-- Witness for C7 amended at concrete inputs. -/
theorem claim_C7_witness :
    (8 ≤ "+1-555-123-4567".data.length ∧
      2 ≤ ("+1-555-123-4567".data.filter Char.isDigit).length ∧
      ∀ c ∈ "+1-555-123-4567".data, c = '+' ∨ phoneClass c = true) ∧
    pyLookup (tolerant_parse_raw_text "" "+1-555-123-4567") "phone" =
      some (.str "+1-555-123-4567") ∧
    pyLookup (tolerant_parse_raw_text "no digits" "none here") "phone" =
      some .pynull :=
  ⟨claim_C7_amended.1 "+1-555-123-4567".data "+1-555-123-4567".data rfl,
   claim_C7_amended.2.2.1 "" "+1-555-123-4567" "+1-555-123-4567" rfl rfl,
   claim_C7_amended.2.2.2 "no digits" "none here" rfl rfl⟩

/-- With enough fuel, the first `findall` match is the `search` match. -/
theorem findAllFrom_head (matchAt : List Char → Option (List Char))
    (h0 : matchAt [] = none) :
    ∀ (l : List Char) (fuel : Nat), l.length < fuel →
      (findAllFrom matchAt fuel l).head? = searchFrom matchAt l := by
  intro l
  induction l with
  | nil =>
    intro fuel hf
    match fuel, hf with
    | f + 1, _ => simp [findAllFrom, searchFrom, h0]
  | cons c cs ih =>
    intro fuel hf
    match fuel, hf with
    | f + 1, hf =>
      rw [findAllFrom, searchFrom]
      cases hm : matchAt (c :: cs) with
      | some m => simp
      | none =>
        simp only [List.length_cons] at hf
        exact ih f (by omega)

/-- The first `_email_re.findall` element is the `re.search` result. -/
theorem emailFindAll_head (s : String) :
    (emailFindAll s).head? = emailSearch s := by
  rw [emailFindAll, emailSearch, List.head?_map,
    findAllFrom_head emailMatchAt rfl s.data (s.data.length + 1) (by omega)]

/-- C8 fails as stated: the tolerant extractor searches the free model text
first, so when that text contains an email it wins over the document's
first email. -/
theorem claim_C8_counterexample :
    pyLookup (tolerant_parse_raw_text "z@w.co" "a@b.co") "email" =
      some (.str "z@w.co") ∧
    emailSearch "a@b.co" = some "a@b.co" ∧
    ("z@w.co" : String) ≠ "a@b.co" :=
  ⟨rfl, rfl, by decide⟩

/-- C8 amended: the minimal fallback extractor always returns the first
email occurring in the document text; the tolerant extractor returns the
free-text email when one exists and otherwise the document's first email. -/
theorem claim_C8_amended :
    (∀ doc m, emailSearch doc = some m →
      pyLookup (fallback_parse_text doc) "email" = some (.str m)) ∧
    (∀ raw doc m, emailSearch raw = some m →
      pyLookup (tolerant_parse_raw_text raw doc) "email" = some (.str m)) ∧
    (∀ raw doc m, emailSearch raw = none → emailSearch doc = some m →
      pyLookup (tolerant_parse_raw_text raw doc) "email" = some (.str m)) := by
  refine ⟨?_, ?_, ?_⟩
  · intro doc m h
    have hh := (emailFindAll_head doc).trans h
    simp [fallback_parse_text, pyLookup, List.lookup, hh]
  · intro raw doc m h
    simp [tolerant_parse_raw_text, pyLookup, List.lookup, h]
  · intro raw doc m h h2
    simp [tolerant_parse_raw_text, pyLookup, List.lookup, h, h2]

/-- Witness for C8 amended at concrete inputs. -/
theorem claim_C8_witness :
    pyLookup (fallback_parse_text "x a@b.co y c@d.eu") "email" =
      some (.str "a@b.co") ∧
    pyLookup (tolerant_parse_raw_text "no addr here" "x a@b.co y c@d.eu")
      "email" = some (.str "a@b.co") :=
  ⟨claim_C8_amended.1 "x a@b.co y c@d.eu" "a@b.co" rfl,
   claim_C8_amended.2.2 "no addr here" "x a@b.co y c@d.eu" "a@b.co" rfl rfl⟩

/-- Joining two fragments with the newline separator. -/
theorem intercalate_pair (a b : String) :
    String.intercalate "\n" [a, b] = a ++ "\n" ++ b := by
  simp [String.intercalate, String.intercalate.go]

/-- C5 fails as stated: for two usable outputs the code overwrites
`text_content` on every loop iteration instead of concatenating, so the
reader returns the last output's text, not the newline-joined fragments. -/
theorem claim_C5_counterexample :
    read_model_text (.dict [("outputs", .list
      [.dict [("content", .dict [("text", .str "A")])],
       .dict [("content", .dict [("text", .str "B")])]])]) = .ok "B" ∧
    ("B" : String) ≠ "A" ++ "\n" ++ "B" :=
  ⟨rfl, by decide⟩

/-- C5 amended: the reader probes `candidates[0].content.parts[*].text`
first (joining that one shape's fragments with newlines and stripping;
`outputs` is then ignored), a traversal failure in the `candidates` shape
still lets the `outputs` shape be probed, and within `outputs` each
iteration overwrites `text_content`, so the last usable output wins; if no
shape yields non-empty text the reader fails with the no-text error. -/
theorem claim_C5_amended :
    (∀ a b z : String, pyStrip (a ++ "\n" ++ b) ≠ "" →
      read_model_text (.dict [("candidates", .list [.dict [("content", .dict
          [("parts", .list [.dict [("text", .str a)],
                            .dict [("text", .str b)]])])]]),
        ("outputs", .list [.dict [("content", .dict [("text", .str z)])]])]) =
        .ok (pyStrip (a ++ "\n" ++ b))) ∧
    (∀ b : String, pyStrip b ≠ "" →
      read_model_text (.dict [("candidates", .num "0"),
        ("outputs", .list [.dict [("content", .dict [("text", .str b)])]])]) =
        .ok (pyStrip b)) ∧
    (∀ a b : String, pyStrip b ≠ "" →
      read_model_text (.dict [("outputs", .list
        [.dict [("content", .dict [("text", .str a)])],
         .dict [("content", .dict [("text", .str b)])]])]) = .ok (pyStrip b)) ∧
    read_model_text (.dict []) = .error .noText ∧
    read_model_text (.dict [("candidates", .list []), ("outputs", .list [])]) =
      .error .noText := by
  refine ⟨?_, ?_, ?_, rfl, rfl⟩
  · intro a b z h
    simp [read_model_text, probeCandidates, probeOutputsGo, joinTexts,
      pyContains, pySubscript, pySubscriptZero, pyGetDefault, pyTruthy,
      pyIter, tcTruthy, Except.toOption, Option.bind, List.lookup,
      intercalate_pair, h]
  · intro b h
    simp [read_model_text, probeCandidates, probeOutputsGo, joinTexts,
      pyContains, pySubscript, pySubscriptZero, pyGetDefault, pyTruthy,
      pyIter, tcTruthy, Except.toOption, Option.bind, List.lookup, h]
  · intro a b h
    simp [read_model_text, probeCandidates, probeOutputsGo, joinTexts,
      pyContains, pySubscript, pySubscriptZero, pyGetDefault, pyTruthy,
      pyIter, tcTruthy, Except.toOption, Option.bind, List.lookup, h]

/-- Witness for C5 amended at concrete envelopes. -/
theorem claim_C5_witness :
    read_model_text (.dict [("candidates", .list [.dict [("content", .dict
        [("parts", .list [.dict [("text", .str "A")],
                          .dict [("text", .str "B")]])])]]),
      ("outputs", .list [.dict [("content", .dict [("text", .str "Z")])]])]) =
      .ok (pyStrip ("A" ++ "\n" ++ "B")) ∧
    read_model_text (.dict [("candidates", .num "0"),
      ("outputs", .list [.dict [("content", .dict [("text", .str "B")])]])]) =
      .ok (pyStrip "B") :=
  ⟨claim_C5_amended.1 "A" "B" "Z" (by decide),
   claim_C5_amended.2.1 "B" (by decide)⟩

theorem ws_ne_obrace : ∀ c : Char, isPyWs c = true → (c != '\x7b') = true := by
  intro c h
  rw [bne_iff_ne]
  intro e; subst e; exact absurd h (by decide)

theorem ws_ne_cbrace : ∀ c : Char, isPyWs c = true → (c != '\x7d') = true := by
  intro c h
  rw [bne_iff_ne]
  intro e; subst e; exact absurd h (by decide)

theorem dropWhile_dropWhile {pp qq : Char → Bool}
    (hsub : ∀ c, qq c = true → pp c = true) :
    ∀ l : List Char, (l.dropWhile qq).dropWhile pp = l.dropWhile pp := by
  intro l
  induction l with
  | nil => rfl
  | cons c t ih =>
    by_cases hq : qq c = true
    · simp [List.dropWhile_cons, hq, hsub c hq, ih]
    · simp [List.dropWhile_cons, hq]

theorem rstrip_append (A B : List Char) :
    rstripL (A ++ B) = if rstripL B = [] then rstripL A else A ++ rstripL B := by
  simp only [rstripL, List.reverse_append, List.dropWhile_append]
  by_cases h : (List.dropWhile isPyWs B.reverse).isEmpty = true
  · have h' : (List.dropWhile isPyWs B.reverse).reverse = [] := by
      rw [List.isEmpty_iff] at h; rw [h]; rfl
    rw [if_pos h, if_pos h']
  · have h' : ¬ (List.dropWhile isPyWs B.reverse).reverse = [] := by
      rw [List.isEmpty_iff] at h
      simpa using h
    rw [if_neg h, if_neg h', List.reverse_append, List.reverse_reverse]

theorem rstrip_cons_of_not_ws {c : Char} (hc : isPyWs c = false) (m : List Char) :
    rstripL (c :: m) = c :: rstripL m := by
  rw [show c :: m = [c] ++ m from rfl, rstrip_append]
  have h1 : rstripL [c] = [c] := by simp [rstripL, List.dropWhile, hc]
  by_cases h : rstripL m = []
  · rw [if_pos h, h1, h]
  · rw [if_neg h]; rfl

theorem rstrip_decomp (m : List Char) :
    ∃ w, m = rstripL m ++ w ∧ ∀ c ∈ w, isPyWs c = true := by
  refine ⟨(m.reverse.takeWhile isPyWs).reverse, ?_, ?_⟩
  · conv_lhs => rw [← List.reverse_reverse m,
      ← List.takeWhile_append_dropWhile isPyWs m.reverse]
    rw [List.reverse_append]
    rfl
  · intro c hc
    rw [List.mem_reverse] at hc
    exact List.mem_takeWhile_imp hc

theorem dropWhile_rstrip {pp : Char → Bool}
    (hws : ∀ c, isPyWs c = true → pp c = true)
    (u : List Char) (hne : List.dropWhile pp u ≠ []) :
    List.dropWhile pp (rstripL u) = rstripL (List.dropWhile pp u) := by
  cases hd : List.dropWhile pp u with
  | nil => exact absurd hd hne
  | cons x rest =>
    have hx : pp x = false := by
      have := List.head?_dropWhile_not pp u
      rw [hd] at this
      simpa using this
    have hxws : isPyWs x = false := by
      cases hxx : isPyWs x
      · rfl
      · exact absurd (hws x hxx) (by simp [hx])
    have hu : u.takeWhile pp ++ (x :: rest) = u := by
      rw [← hd, List.takeWhile_append_dropWhile]
    have hT : ∀ c ∈ u.takeWhile pp, pp c = true := fun c hc =>
      List.mem_takeWhile_imp hc
    calc List.dropWhile pp (rstripL u)
        = List.dropWhile pp (rstripL (u.takeWhile pp ++ (x :: rest))) := by
          rw [hu]
      _ = List.dropWhile pp (u.takeWhile pp ++ (x :: rstripL rest)) := by
          rw [rstrip_append, rstrip_cons_of_not_ws hxws, if_neg (by simp)]
      _ = List.dropWhile pp (x :: rstripL rest) :=
          List.dropWhile_append_of_pos hT
      _ = x :: rstripL rest := by
          rw [List.dropWhile_cons, if_neg (by simp [hx])]
      _ = rstripL (x :: rest) := (rstrip_cons_of_not_ws hxws rest).symm



theorem extractJson_strip_noise (p s q : List Char)
    (hp : '\x7b' ∉ p) (hq : '\x7d' ∉ q)
    (hhead : (stripL s).head? = some '\x7b')
    (hlast : (stripL s).getLast? = some '\x7d') :
    extractJsonL (stripL (p ++ s ++ q)) = .ok (stripL s) := by
  obtain ⟨K2, hK⟩ : ∃ K2, stripL s = '\x7b' :: K2 := by
    cases hc : stripL s with
    | nil => rw [hc] at hhead; simp at hhead
    | cons c t =>
      rw [hc] at hhead
      simp only [List.head?_cons, Option.some.injEq] at hhead
      exact ⟨t, by rw [hhead]⟩
  obtain ⟨K3, hK3⟩ : ∃ K3, stripL s = K3 ++ ['\x7d'] := by
    cases hc : (stripL s).reverse with
    | nil =>
      have hnil : stripL s = [] := by
        have := congrArg List.reverse hc
        simpa using this
      rw [hnil] at hhead; simp at hhead
    | cons c t =>
      have hch : c = '\x7d' := by
        have hh := List.head?_reverse (stripL s)
        rw [hc, hlast] at hh
        simpa using hh
      refine ⟨t.reverse, ?_⟩
      have hrr := congrArg List.reverse hc
      rw [List.reverse_reverse] at hrr
      rw [hrr, hch]
      simp
  obtain ⟨W, hW, hWws⟩ := rstrip_decomp (lstripL s)
  have hW2 : lstripL s = stripL s ++ W := hW
  have hssplit : s.takeWhile isPyWs ++ (stripL s ++ W) = s := by
    conv_rhs => rw [← List.takeWhile_append_dropWhile isPyWs s]
    rw [← hW2]
    rfl
  have hTws : ∀ c ∈ s.takeWhile isPyWs, isPyWs c = true := fun c hc =>
    List.mem_takeWhile_imp hc
  have hpB : ∀ c ∈ p, (c != '\x7b') = true := fun c hc => by
    rw [bne_iff_ne]; intro e; exact hp (e ▸ hc)
  have hTB : ∀ c ∈ s.takeWhile isPyWs, (c != '\x7b') = true := fun c hc =>
    ws_ne_obrace c (hTws c hc)
  have hqC : ∀ c ∈ q.reverse, (c != '\x7d') = true := fun c hc => by
    rw [bne_iff_ne]; intro e; exact hq (e ▸ (List.mem_reverse.mp hc))
  have hWC : ∀ c ∈ W.reverse, (c != '\x7d') = true := fun c hc =>
    ws_ne_cbrace c (hWws c (List.mem_reverse.mp hc))
  have h1 : List.dropWhile (· != '\x7b') (lstripL (p ++ s ++ q)) =
      stripL s ++ (W ++ q) := by
    show List.dropWhile (· != '\x7b')
        (List.dropWhile isPyWs (p ++ s ++ q)) = _
    rw [dropWhile_dropWhile ws_ne_obrace]
    conv_lhs => rw [← hssplit]
    simp only [List.append_assoc]
    rw [List.dropWhile_append_of_pos hpB, List.dropWhile_append_of_pos hTB,
      hK]
    simp only [List.cons_append, List.dropWhile_cons]
    norm_num
  have h2 : List.dropWhile (· != '\x7b') (lstripL (p ++ s ++ q)) ≠ [] := by
    rw [h1, hK]; simp
  have h3 : List.dropWhile (· != '\x7b') (stripL (p ++ s ++ q)) =
      rstripL (stripL s ++ (W ++ q)) := by
    show List.dropWhile (· != '\x7b') (rstripL (lstripL (p ++ s ++ q))) = _
    rw [dropWhile_rstrip ws_ne_obrace _ h2, h1]
  have h5 : List.dropWhile (· != '\x7d')
      ((List.dropWhile (· != '\x7b') (stripL (p ++ s ++ q))).reverse) =
      (stripL s).reverse := by
    rw [h3]
    have hrev : (rstripL (stripL s ++ (W ++ q))).reverse =
        List.dropWhile isPyWs ((stripL s ++ (W ++ q)).reverse) := by
      simp [rstripL]
    rw [hrev, dropWhile_dropWhile ws_ne_cbrace]
    simp only [List.reverse_append, List.append_assoc]
    rw [List.dropWhile_append_of_pos hqC, List.dropWhile_append_of_pos hWC,
      hK3]
    simp only [List.reverse_append, List.reverse_cons, List.reverse_nil,
      List.nil_append, List.cons_append, List.dropWhile_cons]
    rw [if_neg (by decide)]
  have h7 : stripL (p ++ s ++ q) ≠ [] := by
    intro e
    have := h3
    rw [e] at this
    simp only [List.dropWhile_nil] at this
    have hx : rstripL (stripL s ++ (W ++ q)) =
        '\x7b' :: rstripL (K2 ++ (W ++ q)) := by
      rw [hK]
      simp only [List.cons_append]
      exact rstrip_cons_of_not_ws (by decide) _
    rw [hx] at this
    exact List.cons_ne_nil _ _ this.symm
  have hlen : 2 ≤ (stripL s).length := by
    rcases K3 with _ | ⟨c3, t3⟩
    · rw [hK3] at hK
      simp at hK
    · rw [hK3]
      simp only [List.length_append, List.length_cons]
      omega
  unfold extractJsonL
  rw [if_neg (by rw [List.isEmpty_iff]; exact h7)]
  simp only []
  rw [h5, List.reverse_reverse, if_pos hlen]



theorem safe_parse_noise (p s q : String) (v : PyVal)
    (hp : '\x7b' ∉ p.data) (hq : '\x7d' ∉ q.data)
    (hhead : (stripL s.data).head? = some '\x7b')
    (hlast : (stripL s.data).getLast? = some '\x7d')
    (hfence : ¬ (['\x60', '\x60', '\x60'].isPrefixOf
      (stripL (p.data ++ s.data ++ q.data)) = true))
    (hjson : json_loads ⟨stripL s.data⟩ = some v) :
    safe_parse_json_block (p ++ s ++ q) = .ok v := by
  unfold safe_parse_json_block
  have hdata : (p ++ s ++ q).data = p.data ++ s.data ++ q.data := by
    rw [String.data_append, String.data_append]
  rw [hdata]
  simp only []
  rw [if_neg hfence]
  rw [extractJson_strip_noise p.data s.data q.data hp hq hhead hlast]
  simp [hjson]

theorem rdropBy_append (pp : Char → Bool) (A B : List Char) :
    ((A ++ B).reverse.dropWhile pp).reverse =
      if (B.reverse.dropWhile pp).reverse = [] then (A.reverse.dropWhile pp).reverse
      else A ++ (B.reverse.dropWhile pp).reverse := by
  rw [List.reverse_append, List.dropWhile_append]
  by_cases h : (List.dropWhile pp B.reverse).isEmpty = true
  · have h' : (List.dropWhile pp B.reverse).reverse = [] := by
      rw [List.isEmpty_iff] at h; rw [h]; rfl
    rw [if_pos h, if_pos h']
  · have h' : ¬ (List.dropWhile pp B.reverse).reverse = [] := by
      rw [List.isEmpty_iff] at h
      simpa using h
    rw [if_neg h, if_neg h', List.reverse_append, List.reverse_reverse]

theorem safe_parse_fenced (s : String) (v : PyVal)
    (hhead : (stripL s.data).head? = some '\x7b')
    (hlast : (stripL s.data).getLast? = some '\x7d')
    (hjson : json_loads ⟨stripL s.data⟩ = some v) :
    safe_parse_json_block ("\x60\x60\x60json\n" ++ s ++ "\n\x60\x60\x60") = .ok v := by
  unfold safe_parse_json_block
  have hdata : ("\x60\x60\x60json\n" ++ s ++ "\n\x60\x60\x60").data =
      "\x60\x60\x60json\n".data ++ s.data ++ "\n\x60\x60\x60".data := by
    rw [String.data_append, String.data_append]
  rw [hdata]
  simp only []
  have hstrip : stripL ("\x60\x60\x60json\n".data ++ s.data ++ "\n\x60\x60\x60".data) =
      "\x60\x60\x60json\n".data ++ s.data ++ "\n\x60\x60\x60".data := by
    show rstripL (lstripL _) = _
    have hl : lstripL ("\x60\x60\x60json\n".data ++ s.data ++ "\n\x60\x60\x60".data) =
        "\x60\x60\x60json\n".data ++ s.data ++ "\n\x60\x60\x60".data := by
      simp [lstripL, List.cons_append, List.dropWhile_cons, isPyWs]
    rw [hl]
    show ((("\x60\x60\x60json\n".data ++ s.data) ++ "\n\x60\x60\x60".data).reverse.dropWhile isPyWs).reverse = _
    have hB : ("\n\x60\x60\x60".data.reverse.dropWhile isPyWs).reverse =
        "\n\x60\x60\x60".data := by decide
    rw [rdropBy_append isPyWs, hB]
    rw [if_neg (by decide)]
  rw [hstrip]
  rw [if_pos (by simp [List.isPrefixOf, List.cons_append])]
  have hsc : stripCharL '\x60'
      ("\x60\x60\x60json\n".data ++ s.data ++ "\n\x60\x60\x60".data) =
      ("json\n".data ++ s.data) ++ ['\x0a'] := by
    show ((("\x60\x60\x60json\n".data ++ s.data ++ "\n\x60\x60\x60".data).dropWhile
        (· == '\x60')).reverse.dropWhile (· == '\x60')).reverse = _
    have hfront : ("\x60\x60\x60json\n".data ++ s.data ++ "\n\x60\x60\x60".data).dropWhile
        (· == '\x60') = ("json\n".data ++ s.data) ++ "\n\x60\x60\x60".data := by
      simp [List.append_assoc, List.cons_append, List.dropWhile_cons]
    rw [hfront]
    have hE : ("\n\x60\x60\x60".data.reverse.dropWhile (· == '\x60')).reverse =
        ['\x0a'] := by decide
    rw [rdropBy_append (· == '\x60'), hE]
    rw [if_neg (by decide)]
  rw [hsc]
  have hrf : replaceFirstL "json".data (("json\n".data ++ s.data) ++ ['\x0a']) =
      '\x0a' :: (s.data ++ ['\x0a']) := by
    show replaceFirstL "json".data
        ('j' :: 's' :: 'o' :: 'n' :: '\x0a' :: (s.data ++ ['\x0a'])) = _
    rw [replaceFirstL]
    rw [if_pos (by simp [List.isPrefixOf])]
    rfl
  rw [hrf]
  have hex := extractJson_strip_noise ['\x0a'] s.data ['\x0a']
    (by decide) (by decide) hhead hlast
  have hform : ['\x0a'] ++ s.data ++ ['\x0a'] = '\x0a' :: (s.data ++ ['\x0a']) := by
    simp
  rw [hform] at hex
  rw [hex]
  simp [hjson]

/-- C2 fails as stated: with arbitrary noise the recovered substring spans
from the first `\x7b` of the noise to the last `\x7d`, which need not be
valid JSON.  A single leading `\x7b` of noise around the valid object
text breaks recovery; and a bare fence makes the `replace("json", "", 1)`
step corrupt an object whose text contains "json". -/
theorem claim_C2_counterexample :
    safe_parse_json_block ("\x7b" ++ "\x7b\"a\":1\x7d" ++ "") =
      .error (.decodeError "\x7b\x7b\"a\":1\x7d") ∧
    json_loads "\x7b\"a\":1\x7d" = some (.dict [("a", .num "1")]) ∧
    safe_parse_json_block "\x60\x60\x60\n\x7b\"json_key\": 1\x7d\n\x60\x60\x60" =
      .ok (.dict [("_key", .num "1")]) ∧
    json_loads "\x7b\"json_key\": 1\x7d" = some (.dict [("json_key", .num "1")]) :=
  ⟨rfl, rfl, rfl, rfl⟩

/-- C2 amended: recovery returns the strict parse of `s` provided the
leading noise contains no `\x7b`, the trailing noise contains no `\x7d`,
and the stripped combined text does not begin with a backtick fence; a
standard fence with the `json` language tag and no other noise is also
recovered exactly. -/
theorem claim_C2_amended :
    (∀ (p s q : String) (v : PyVal),
      '\x7b' ∉ p.data → '\x7d' ∉ q.data →
      (stripL s.data).head? = some '\x7b' →
      (stripL s.data).getLast? = some '\x7d' →
      ¬ (['\x60', '\x60', '\x60'].isPrefixOf
          (stripL (p.data ++ s.data ++ q.data)) = true) →
      json_loads ⟨stripL s.data⟩ = some v →
      safe_parse_json_block (p ++ s ++ q) = .ok v) ∧
    (∀ (s : String) (v : PyVal),
      (stripL s.data).head? = some '\x7b' →
      (stripL s.data).getLast? = some '\x7d' →
      json_loads ⟨stripL s.data⟩ = some v →
      safe_parse_json_block ("\x60\x60\x60json\n" ++ s ++ "\n\x60\x60\x60") =
        .ok v) :=
  ⟨safe_parse_noise, safe_parse_fenced⟩

/-- Witness for C2 amended: noisy and fenced recovery at concrete inputs. -/
theorem claim_C2_witness :
    safe_parse_json_block ("noise " ++ "\x7b\"a\": 1\x7d" ++ " tail") =
      .ok (.dict [("a", .num "1")]) ∧
    safe_parse_json_block
        ("\x60\x60\x60json\n" ++ " \x7b\"a\": 1\x7d " ++ "\n\x60\x60\x60") =
      .ok (.dict [("a", .num "1")]) :=
  ⟨claim_C2_amended.1 "noise " "\x7b\"a\": 1\x7d" " tail" (.dict [("a", .num "1")])
      (by decide) (by decide) (by rfl) (by rfl) (by decide) (by rfl),
   claim_C2_amended.2 " \x7b\"a\": 1\x7d " (.dict [("a", .num "1")])
      (by rfl) (by rfl) (by rfl)⟩

end ResumeParser